import Mathlib

/-!
Verification of the knowledge-graph memory server and the sandboxed
filesystem server of the openai-cli-client repository.

The development shallowly embeds the TypeScript sources (mainly
`src/mcp/comprehensive-filesystem-memory-server.ts`, whose filesystem and
directory-management methods coincide with the `FilesystemServer` variant)
into Lean:

* JS strings are modelled as `List Char` (`Str`); `String.prototype.includes`,
  `startsWith`, `toLowerCase`, first-occurrence `replace` and `split` are
  modelled by executable functions below.
* The JS object `memoryGraph.entities` (string keys, insertion ordered) is
  modelled as an insertion-ordered list of nodes; key update is an in-place
  map and key deletion a filter, which agree with the object semantics on the
  unique-key lists the server constructs.
* `path.resolve` is modelled for absolute candidate paths (the servers are
  invoked with absolute paths; prepending the working directory to relative
  candidates is out of scope): `.` and empty segments are dropped and `..`
  pops one segment, exactly the canonicalization `path.resolve` performs.
* Timestamps (`new Date().toISOString()` / `Date.now()`) are modelled as
  natural numbers rendered in decimal inside observation strings; ISO-8601
  rendering is order-isomorphic to the numeric clock, which is all the
  24-hour recency filter observes.
* Asynchronous effects are sequentialized; the persistence layer
  (`saveMemoryGraph`, `saveConfiguration`) is the identity on the in-memory
  state it mirrors and is not modelled further.
-/

/-- JS strings, modelled as lists of characters. -/
abbrev Str := List Char

/-- Embed a Lean string literal as a `Str`. -/
def str (s : String) : Str := s.data

/-- The model of `String.prototype.toLowerCase`. -/
def lowerStr (s : Str) : Str := s.map Char.toLower

/-- The model of `hay.includes(needle)` on JS strings: substring containment. -/
def jsIncludes : Str → Str → Bool
  | [], needle => needle.isEmpty
  | c :: t, needle => needle.isPrefixOf (c :: t) || jsIncludes t needle

/-- The part of `s` before the first occurrence of `sep` (all of `s` when
`sep` does not occur). -/
def upToFirst (sep : Str) : Str → Str
  | [] => []
  | c :: t => if sep.isPrefixOf (c :: t) then [] else c :: upToFirst sep t

/-- The part of `s` after the first occurrence of `sep`, when `sep` occurs. -/
def afterFirst (sep : Str) : Str → Option Str
  | [] => if sep.isEmpty then some [] else none
  | c :: t =>
    if sep.isPrefixOf (c :: t) then some (List.drop sep.length (c :: t))
    else afterFirst sep t

/-- The model of `s.split(sep)[1]`: the fragment between the first occurrence of `sep`
and the following occurrence (or the end); `none` when `sep` does not
occur. -/
def splitSecond (sep s : Str) : Option Str :=
  (afterFirst sep s).map (upToFirst sep)

/-- The ECMA-262 `GetSubstitution` scan over a replacement string when the
search value is a plain string (no capture groups): a dollar sign followed
by another dollar yields a literal dollar, by an ampersand yields the
matched text, by a backquote (code 96) yields the part of the subject
before the match, by a quote (code 39) yields the part after the match;
any other dollar (including a trailing one, `$n` with no captures and
`$<`) is kept literally and scanning resumes after it. -/
def substituteDollars (matched before after : Str) : Str → Str
  | [] => []
  | c :: rest =>
    if c = '$' then
      match rest with
      | [] => ['$']
      | d :: rest2 =>
        if d = '$' then '$' :: substituteDollars matched before after rest2
        else if d = '&' then matched ++ substituteDollars matched before after rest2
        else if d = Char.ofNat 96 then before ++ substituteDollars matched before after rest2
        else if d = Char.ofNat 39 then after ++ substituteDollars matched before after rest2
        else '$' :: substituteDollars matched before after (d :: rest2)
    else c :: substituteDollars matched before after rest

/-- Modelled from the spec: the *literal* substring replacement the claim
describes, with `newText` inserted verbatim.  This is the spec side of the
refinement comparison for the edit semantics; `replaceFirst` below is the
code side. -/
def replaceFirstLiteral (hay old new : Str) : Str :=
  match afterFirst old hay with
  | some rest => upToFirst old hay ++ new ++ rest
  | none => hay

/-- The model of `hay.replace(old, new)` on JS strings with a plain string
replacement: replace the first occurrence of `old`, building the
replacement text from `new` by the `GetSubstitution` scan (the matched
text is `old` itself, the before/after parts come from the subject). -/
def replaceFirst (hay old new : Str) : Str :=
  match afterFirst old hay with
  | some rest =>
    upToFirst old hay ++ substituteDollars old (upToFirst old hay) rest new ++ rest
  | none => hay

/-- Numeric timestamp parsing, the model of `new Date(s)` on the decimal
renderings produced by `natDec`; any other string is an invalid date (on
which every comparison is false, like a `NaN` date). -/
def parseTimestamp (s : Str) : Option Nat :=
  if s ≠ [] ∧ s.all Char.isDigit then
    some (s.foldl (fun a c => a * 10 + (c.toNat - 48)) 0)
  else none

/-- Decimal rendering of a numeric timestamp, the model of
`Date.prototype.toISOString` under the order-isomorphic numeric clock. -/
def natDec (n : Nat) : Str := Nat.toDigits 10 n

/-- Split a path on `/`. -/
def splitSlash : Str → List Str
  | [] => [[]]
  | c :: t =>
    if c = '/' then [] :: splitSlash t
    else
      match splitSlash t with
      | [] => [[c]]
      | s :: rest => (c :: s) :: rest

/-- Canonicalize path segments: empty and `.` segments vanish, `..` pops the
previous segment (and is dropped at the root), exactly as `path.resolve`
normalizes an absolute path. -/
def resolveSegs (segs : List Str) : List Str :=
  segs.foldl
    (fun acc seg =>
      if seg = [] ∨ seg = ['.'] then acc
      else if seg = ['.', '.'] then acc.dropLast
      else acc ++ [seg])
    []

/-- The model of `path.resolve(p)` for an absolute `p`: canonicalize `..`/`.` segments and
collapse repeated separators. -/
def resolvePath (p : Str) : Str :=
  '/' :: List.intercalate ['/'] (resolveSegs (splitSlash p))

/-- The error taxonomy surfaced by the servers (each is thrown as an `Error`
with a fixed message shape in the source). -/
inductive ServerError where
  | accessDenied
  | fileNotFound
  | textNotFound
  | entityNotFound
  | lastDirectory
  | notADirectory
deriving DecidableEq, Repr

deriving instance DecidableEq for Except

/-- The method `validatePath` of `ComprehensiveFilesystemMemoryServer` (identical in
`FilesystemServer`): resolve the candidate, succeed with the resolved path
when it `startsWith` some allowed directory, otherwise throw access denied. -/
def validatePath (allowedDirectories : List Str) (targetPath : Str) : Except ServerError Str :=
  let resolvedPath := resolvePath targetPath
  if allowedDirectories.any (fun allowedDir => allowedDir.isPrefixOf resolvedPath) then
    Except.ok resolvedPath
  else
    Except.error ServerError.accessDenied

/-- Modelled from the spec: a resolved path is *equal to or nested under* a
directory when it is the directory itself or extends it below a `/`
separator.  This is the spec side of the refinement comparison for the
sandbox check; `validatePath` above is the code side. -/
def nestedUnder (dir resolved : Str) : Prop :=
  resolved = dir ∨ (dir ++ ['/']) <+: resolved

instance (dir resolved : Str) : Decidable (nestedUnder dir resolved) := by
  unfold nestedUnder; infer_instance

/-- A directed, typed edge of the knowledge graph (`MemoryRelation` of
`src/types/index.ts`; the `from` field is `from_` since `from` is a Lean
keyword). -/
structure MemoryRelation where
  from_ : Str
  to_ : Str
  relationType : Str
deriving DecidableEq, Repr

/-- A node of the knowledge graph (`MemoryNode` of `src/types/index.ts`). -/
structure MemoryNode where
  name : Str
  entityType : Str
  observations : List Str
  relations : List MemoryRelation
deriving DecidableEq, Repr

/-- An entity argument to `create_entities` (`MemoryEntity` of
`src/types/index.ts`: no relations field). -/
structure MemoryEntity where
  name : Str
  entityType : Str
  observations : List Str
deriving DecidableEq, Repr

/-- The graph `memoryGraph.entities`: a JS object keyed by entity name,
modelled as its insertion-ordered entry list. -/
abbrev MemoryGraph := List MemoryNode

/-- The object access `memoryGraph.entities[n]`: first (and, for graphs the server builds,
only) node named `n`. -/
def lookupEntity (g : MemoryGraph) (n : Str) : Option MemoryNode :=
  g.find? fun e => decide (e.name = n)

/-- Observation merge of `createEntitiesInternal`: append the incoming
observations that the existing list does not already `include`. -/
def mergeObs (existingObs newObs : List Str) : List Str :=
  existingObs ++ newObs.filter fun obs => decide (obs ∉ existingObs)

/-- One step of `createEntitiesInternal`: merge observations into an
existing entity, or append a fresh node with empty relations. -/
def createEntitiesInternal1 (g : MemoryGraph) (entity : MemoryEntity) : MemoryGraph :=
  if (lookupEntity g entity.name).isSome then
    g.map fun m =>
      if m.name = entity.name then
        { m with observations := mergeObs m.observations entity.observations }
      else m
  else
    g ++ [{ name := entity.name, entityType := entity.entityType,
            observations := entity.observations, relations := [] }]

/-- The method `createEntitiesInternal` of `ComprehensiveFilesystemMemoryServer`. -/
def createEntitiesInternal (g : MemoryGraph) (entities : List MemoryEntity) : MemoryGraph :=
  entities.foldl createEntitiesInternal1 g

/-- Stub creation of `createRelationsInternal`: auto-create a missing
endpoint as an entity of type `unknown`. -/
def ensureEntity (g : MemoryGraph) (n : Str) : MemoryGraph :=
  if (lookupEntity g n).isSome then g
  else g ++ [{ name := n, entityType := str "unknown", observations := [], relations := [] }]

/-- One step of `createRelationsInternal`: stub-create both endpoints, then
push the relation onto the source entity unless the exact
(to, relationType) pair is already present there. -/
def createRelationsInternal1 (g : MemoryGraph) (relation : MemoryRelation) : MemoryGraph :=
  let g2 := ensureEntity (ensureEntity g relation.from_) relation.to_
  g2.map fun m =>
    if m.name = relation.from_ then
      if m.relations.any (fun r => decide (r.to_ = relation.to_ ∧ r.relationType = relation.relationType)) then
        m
      else
        { m with relations := m.relations ++
            [{ from_ := relation.from_, to_ := relation.to_, relationType := relation.relationType }] }
    else m

/-- The method `createRelationsInternal` of `ComprehensiveFilesystemMemoryServer`. -/
def createRelationsInternal (g : MemoryGraph) (relations : List MemoryRelation) : MemoryGraph :=
  relations.foldl createRelationsInternal1 g

/-- The method `addObservations` of `ComprehensiveFilesystemMemoryServer`: throw when
the entity is missing, otherwise merge and report *the input list's
length* in the success message (`Successfully added N observations`). -/
def addObservations (g : MemoryGraph) (entityName : Str) (observations : List Str) :
    Except ServerError (MemoryGraph × Nat) :=
  match lookupEntity g entityName with
  | none => Except.error ServerError.entityNotFound
  | some _ =>
    Except.ok
      (g.map fun m =>
        if m.name = entityName then
          { m with observations := mergeObs m.observations observations }
        else m,
       observations.length)

/-- One step of `deleteEntities`: drop the named entity, then strip every
remaining entity's relation list of edges pointing at it. -/
def deleteEntities1 (g : MemoryGraph) (entityName : Str) : MemoryGraph :=
  (g.filter fun e => decide (e.name ≠ entityName)).map fun e =>
    { e with relations := e.relations.filter fun r => decide (r.to_ ≠ entityName) }

/-- The method `deleteEntities` of `ComprehensiveFilesystemMemoryServer`. -/
def deleteEntities (g : MemoryGraph) (entityNames : List Str) : MemoryGraph :=
  entityNames.foldl deleteEntities1 g

/-- A search hit of `searchNodesInternal`. -/
structure MemorySearchResult where
  name : Str
  entityType : Str
  observations : List Str
  relations : List MemoryRelation
  score : Nat
deriving DecidableEq, Repr

/-- The score `searchNodesInternal` computes for one entity against the
lowercased query: 100 for a name hit, 50 for a type hit, 10 per matching
observation (this server variant scores no relation field). -/
def entityScore (queryLower : Str) (e : MemoryNode) : Nat :=
  (if jsIncludes (lowerStr e.name) queryLower then 100 else 0) +
  (if jsIncludes (lowerStr e.entityType) queryLower then 50 else 0) +
  10 * e.observations.countP (fun obs => jsIncludes (lowerStr obs) queryLower)

/-- The result list of `searchNodesInternal` before sorting, in entity
insertion order, keeping exactly the entities with positive score. -/
def searchResultsUnsorted (g : MemoryGraph) (query : Str) : List MemorySearchResult :=
  let queryLower := lowerStr query
  g.filterMap fun e =>
    let score := entityScore queryLower e
    if 0 < score then
      some { name := e.name, entityType := e.entityType, observations := e.observations,
             relations := e.relations, score := score }
    else none

/-- Insert a hit into a descending-sorted list, after strictly greater
scores and before lower-or-equal ones. -/
def insertDesc (x : MemorySearchResult) : List MemorySearchResult → List MemorySearchResult
  | [] => [x]
  | y :: ys => if y.score ≤ x.score then x :: y :: ys else y :: insertDesc x ys

/-- Stable descending sort by score, the model of the stable
`results.sort((a, b) => b.score - a.score)` (any two stable sorts under the
same total preorder agree, so insertion sort is a faithful model). -/
def sortByScoreDesc : List MemorySearchResult → List MemorySearchResult
  | [] => []
  | x :: xs => insertDesc x (sortByScoreDesc xs)

/-- The method `searchNodesInternal` of `ComprehensiveFilesystemMemoryServer`. -/
def searchNodesInternal (g : MemoryGraph) (query : Str) : List MemorySearchResult :=
  sortByScoreDesc (searchResultsUnsorted g query)

/-- The method `addAllowedDirectory` (directory-set aspect; the graph-side
`filesystem_directory` entity of the memory variant is bridge telemetry and
independent of the set).  `dirExists r` models `fs.stat(r)` succeeding with
`stats.isDirectory()`; an already-present directory is an informational
no-op success. -/
def addAllowedDirectory (dirExists : Str → Bool) (allowedDirectories : List Str)
    (dirPath : Str) : Except ServerError (List Str) :=
  let resolvedPath := resolvePath dirPath
  if ¬ dirExists resolvedPath then Except.error ServerError.notADirectory
  else if resolvedPath ∈ allowedDirectories then Except.ok allowedDirectories
  else Except.ok (allowedDirectories ++ [resolvedPath])

/-- The two non-error outcomes of `removeAllowedDirectory`: an actual
removal, or the informational `was not found in the allowed directories
list` message. -/
inductive RemoveOutcome where
  | removed
  | notFoundMsg
deriving DecidableEq, Repr

/-- The method `removeAllowedDirectory` (directory-set aspect): filter the resolved
path out; report not-found when nothing was removed; when the filtered set
is empty, push the path back (full rollback) and throw the last-directory
error.  The second component is the allowed-directory list the server is
left with. -/
def removeAllowedDirectory (allowedDirectories : List Str) (dirPath : Str) :
    Except ServerError RemoveOutcome × List Str :=
  let resolvedPath := resolvePath dirPath
  let filtered := allowedDirectories.filter fun dir => decide (dir ≠ resolvedPath)
  if filtered.length = allowedDirectories.length then
    (Except.ok RemoveOutcome.notFoundMsg, filtered)
  else if filtered.length = 0 then
    (Except.error ServerError.lastDirectory, filtered ++ [resolvedPath])
  else
    (Except.ok RemoveOutcome.removed, filtered)

/-- A mutation of the allowed-directory set. -/
inductive DirOp where
  | add (p : Str)
  | remove (p : Str)

/-- The allowed-directory list after one tool call (on error the server
keeps the list the handler left behind: unchanged for a failed add, the
rolled-back list for a failed remove). -/
def applyDirOp (dirExists : Str → Bool) (allowedDirectories : List Str) :
    DirOp → List Str
  | DirOp.add p =>
    match addAllowedDirectory dirExists allowedDirectories p with
    | Except.ok l => l
    | Except.error _ => allowedDirectories
  | DirOp.remove p => (removeAllowedDirectory allowedDirectories p).2

/-- The allowed-directory list after a sequence of add/remove tool calls. -/
def runDirOps (dirExists : Str → Bool) (allowedDirectories : List Str)
    (ops : List DirOp) : List Str :=
  ops.foldl (applyDirOp dirExists) allowedDirectories

/-- The disk contents visible to the server: an association of absolute
paths to file contents. -/
abbrev FsState := List (Str × Str)

/-- The model of `fs.readFile`. -/
def fsRead (fs : FsState) (p : Str) : Option Str :=
  (fs.find? fun e => decide (e.1 = p)).map Prod.snd

/-- The model of `fs.writeFile` (parent-directory creation is implicit in this model). -/
def fsWrite (fs : FsState) (p content : Str) : FsState :=
  if (fs.find? fun e => decide (e.1 = p)).isSome then
    fs.map fun e => if e.1 = p then (p, content) else e
  else fs ++ [(p, content)]

/-- The model of `path.basename` for the absolute paths the server handles: the part
after the last `/`. -/
def basename (p : Str) : Str :=
  (splitSlash p).getLastD []

/-- The model of `path.dirname` for the absolute paths the server handles: the part
before the last `/`, or `/` at the root. -/
def dirname (p : Str) : Str :=
  let joined := List.intercalate ['/'] (splitSlash p).dropLast
  if joined = [] then ['/'] else joined

/-- The optional `metadata` argument of `rememberFileAccess`. -/
structure FileMetadata where
  size : Option Nat := none
  isDirectory : Option Bool := none
  modified : Option Str := none
  content : Option Str := none
deriving DecidableEq, Repr

/-- The rendering of a boolean, for the `Is directory:`
observation. -/
def boolStr (b : Bool) : Str := if b then str "true" else str "false"

/-- The metadata-dependent observations `rememberFileAccess` appends
(`Size:`, `Is directory:`, `Last modified:`, and for reads a content
preview capped at 200 characters with an ellipsis marker). -/
def metadataObservations (operation : Str) (m : FileMetadata) : List Str :=
  (match m.size with
   | some n => [str "Size: " ++ natDec n ++ str " bytes"]
   | none => []) ++
  (match m.isDirectory with
   | some b => [str "Is directory: " ++ boolStr b]
   | none => []) ++
  (match m.modified with
   | some t => [str "Last modified: " ++ t]
   | none => []) ++
  (match m.content with
   | some c =>
     if operation = str "read" then
       [str "Content preview: " ++
          (if 200 < c.length then c.take 200 ++ str "..." else c)]
     else []
   | none => [])

/-- The recency test of the temporal heuristic: the observation `includes`
`Accessed at:` and the timestamp after the first `Accessed at: ` parses to
a moment within the last 24 hours (86400000 ms). -/
def isRecentAccessObs (now : Nat) (obs : Str) : Bool :=
  jsIncludes obs (str "Accessed at:") &&
    match (splitSecond (str "Accessed at: ") obs).bind parseTimestamp with
    | some t => decide (now - 86400000 < t)
    | none => false

/-- The `recentFiles` scan of `rememberFileAccess`: `filesystem_file`-typed
entities, in entity insertion order, having some recent access
observation. -/
def recentFiles (g : MemoryGraph) (now : Nat) : List MemoryNode :=
  g.filter fun e =>
    decide (e.entityType = str "filesystem_file") &&
      e.observations.any (isRecentAccessObs now)

/-- Placeholder node for the (always in-bounds) JS index
`recentFiles[recentFiles.length - 2]`. -/
def dummyNode : MemoryNode :=
  { name := [], entityType := [], observations := [], relations := [] }

/-- The first two effects of `rememberFileAccess`: upsert the
`file:<path>` entity with fresh observations, then the `contains` relation
from the `directory:<dirname>` entity (stub-created when missing). -/
def rememberUpserted (g : MemoryGraph) (filePath operation : Str)
    (metadata : Option FileMetadata) (now : Nat) : MemoryGraph :=
  let fileEntityName := str "file:" ++ filePath
  let dirPath := dirname filePath
  let observations :=
    [str "Operation: " ++ operation,
     str "Accessed at: " ++ natDec now,
     str "File name: " ++ basename filePath,
     str "Directory: " ++ dirPath] ++
    (match metadata with
     | some m => metadataObservations operation m
     | none => [])
  let g1 := createEntitiesInternal g
    [{ name := fileEntityName, entityType := str "filesystem_file",
       observations := observations }]
  createRelationsInternal g1
    [{ from_ := str "directory:" ++ dirPath, to_ := fileEntityName,
       relationType := str "contains" }]

/-- The method `rememberFileAccess` of `ComprehensiveFilesystemMemoryServer`: the
upserts above, then the temporal heuristic — when more than one
`filesystem_file` entity was accessed in the last 24 hours, link the
just-touched file to `recentFiles[recentFiles.length - 2]` by an
`accessed_after` relation. -/
def rememberFileAccess (g : MemoryGraph) (filePath operation : Str)
    (metadata : Option FileMetadata) (now : Nat) : MemoryGraph :=
  let g2 := rememberUpserted g filePath operation metadata now
  let recent := recentFiles g2 now
  if 1 < recent.length then
    createRelationsInternal g2
      [{ from_ := str "file:" ++ filePath,
         to_ := (recent.getD (recent.length - 2) dummyNode).name,
         relationType := str "accessed_after" }]
  else g2

/-- The mutable state of the composite server relevant to the claims. -/
structure ServerState where
  allowedDirectories : List Str
  memoryGraph : MemoryGraph
deriving DecidableEq, Repr

/-- The method `readFile`: validate, read, and only on success remember the access
(size and full content as metadata). -/
def readFile (fs : FsState) (st : ServerState) (filePath : Str) (now : Nat) :
    Except ServerError Str × ServerState :=
  match validatePath st.allowedDirectories filePath with
  | Except.error e => (Except.error e, st)
  | Except.ok validatedPath =>
    match fsRead fs validatedPath with
    | none => (Except.error ServerError.fileNotFound, st)
    | some content =>
      let g := rememberFileAccess st.memoryGraph filePath (str "read")
        (some { size := some content.length, content := some content }) now
      (Except.ok content, { st with memoryGraph := g })

/-- The method `writeFile`: validate, write (creating parents as needed), and only on
success remember the access (content preview capped at 1000 characters). -/
def writeFile (fs : FsState) (st : ServerState) (filePath content : Str) (now : Nat) :
    Except ServerError Unit × (FsState × ServerState) :=
  match validatePath st.allowedDirectories filePath with
  | Except.error e => (Except.error e, (fs, st))
  | Except.ok validatedPath =>
    let preview := if 1000 < content.length then content.take 1000 ++ str "..." else content
    let g := rememberFileAccess st.memoryGraph filePath (str "write")
      (some { size := some content.length, content := some preview }) now
    (Except.ok (), (fsWrite fs validatedPath content, { st with memoryGraph := g }))

/-- One entry of the `edits` argument of `edit_file`. -/
structure FileEdit where
  oldText : Str
  newText : Str
deriving DecidableEq, Repr

/-- The edit loop of `editFile`: ordered literal first-occurrence
replacements against the progressively modified content, failing as soon
as an `oldText` is absent from the current content. -/
def applyEdits (content : Str) : List FileEdit → Except ServerError Str
  | [] => Except.ok content
  | e :: rest =>
    if jsIncludes content e.oldText then
      applyEdits (replaceFirst content e.oldText e.newText) rest
    else Except.error ServerError.textNotFound

/-- The success payload of `editFile`: the dry-run preview reports the
original and would-be modified content lengths. -/
inductive EditOutcome where
  | dryRunReport (originalLength modifiedLength : Nat)
  | edited
deriving DecidableEq, Repr

/-- The method `editFile`: validate, read, apply the edits; a dry run stops there,
otherwise write back and remember the access. -/
def editFile (fs : FsState) (st : ServerState) (filePath : Str)
    (edits : List FileEdit) (dryRun : Bool) (now : Nat) :
    Except ServerError EditOutcome × (FsState × ServerState) :=
  match validatePath st.allowedDirectories filePath with
  | Except.error e => (Except.error e, (fs, st))
  | Except.ok validatedPath =>
    match fsRead fs validatedPath with
    | none => (Except.error ServerError.fileNotFound, (fs, st))
    | some originalContent =>
      match applyEdits originalContent edits with
      | Except.error e => (Except.error e, (fs, st))
      | Except.ok modifiedContent =>
        if dryRun then
          (Except.ok (EditOutcome.dryRunReport originalContent.length modifiedContent.length),
           (fs, st))
        else
          let g := rememberFileAccess st.memoryGraph filePath (str "edit")
            (some { size := some modifiedContent.length }) now
          (Except.ok EditOutcome.edited,
           (fsWrite fs validatedPath modifiedContent, { st with memoryGraph := g }))

/-- Does the graph contain an edge `(from_, to_, relationType)` on the
source entity? -/
def hasRelation (g : MemoryGraph) (from_ to_ relationType : Str) : Bool :=
  g.any fun m =>
    decide (m.name = from_) &&
      m.relations.any fun r => decide (r.to_ = to_ ∧ r.relationType = relationType)


/-- The state in which an upsert of `entity` is a no-op: the entity name is
present and every incoming observation is already recorded on every entry
carrying that name. -/
def coveredBy (g : MemoryGraph) (entity : MemoryEntity) : Prop :=
  (lookupEntity g entity.name).isSome ∧
  ∀ m ∈ g, m.name = entity.name → ∀ s ∈ entity.observations, s ∈ m.observations

/-! ### Helper lemmas -/

theorem lookupEntity_map (g : MemoryGraph) (f : MemoryNode → MemoryNode)
    (hf : ∀ m, (f m).name = m.name) (n : Str) :
    lookupEntity (g.map f) n = (lookupEntity g n).map f := by
  induction g with
  | nil => rfl
  | cons m t ih =>
    by_cases h : m.name = n
    · simp [lookupEntity, List.find?_cons_of_pos, h, hf]
    · simp only [lookupEntity, List.map_cons] at *
      rw [List.find?_cons_of_neg, List.find?_cons_of_neg, ih]
      · simpa using h
      · simpa [hf] using h

theorem lookupEntity_append (g : MemoryGraph) (x : MemoryNode) (n : Str) :
    lookupEntity (g ++ [x]) n =
      ((lookupEntity g n).or (if x.name = n then some x else none)) := by
  unfold lookupEntity
  rw [List.find?_append]
  by_cases h : x.name = n <;> simp [List.find?, h]

theorem lookupEntity_eq_none_iff (g : MemoryGraph) (n : Str) :
    lookupEntity g n = none ↔ ∀ m ∈ g, m.name ≠ n := by
  unfold lookupEntity
  simp [List.find?_eq_none]

/-! ### C1 — path sandbox validation -/

/-- C1, counterexample: the claim says `validate(P)` succeeds exactly when
the resolved path is equal to or nested under some allowed directory, but
with `/tmp/a` allowed, the sibling path `/tmp/ab` — not nested under
`/tmp/a` — also validates, because the check is a plain string
`startsWith` with no separator boundary. -/
theorem validatePath_sibling_counterexample :
    validatePath [str "/tmp/a"] (str "/tmp/ab") = Except.ok (str "/tmp/ab") ∧
    ¬ nestedUnder (str "/tmp/a") (str "/tmp/ab") := by decide

/-- C1, amended: `validate(P)` succeeds (returning the resolved path, with
`..`/`.` canonicalized before the check) exactly when some allowed
directory is a plain string prefix of the resolved path; every path that
is equal to or nested under an allowed directory validates, and every path
whose resolved form extends no allowed directory as a string prefix —
including `..`-traversals out of an allowed root — fails with access
denied. -/
theorem validatePath_string_prefix_characterization (allowed : List Str) (p : Str) :
    ((∃ d ∈ allowed, d <+: resolvePath p) →
        validatePath allowed p = Except.ok (resolvePath p)) ∧
    ((∀ d ∈ allowed, ¬ d <+: resolvePath p) →
        validatePath allowed p = Except.error ServerError.accessDenied) ∧
    (∀ d ∈ allowed, nestedUnder d (resolvePath p) →
        validatePath allowed p = Except.ok (resolvePath p)) := by
  refine ⟨fun h => ?_, fun h => ?_, fun d hd hn => ?_⟩
  · unfold validatePath
    rw [if_pos]
    obtain ⟨d, hd, hpre⟩ := h
    exact List.any_eq_true.mpr ⟨d, hd, by simpa using hpre⟩
  · unfold validatePath
    rw [if_neg]
    intro hany
    obtain ⟨d, hd, hpre⟩ := List.any_eq_true.mp hany
    exact h d hd (by simpa using hpre)
  · unfold validatePath
    rw [if_pos]
    refine List.any_eq_true.mpr ⟨d, hd, ?_⟩
    rcases hn with h | h
    · simp [h]
    · simpa using (List.prefix_append d ['/']).trans h

/-- C1 witness: with `/tmp/a` allowed, the nested traversal
`/tmp/a/b/../c` validates to `/tmp/a/c`, and the escaping traversal
`/tmp/a/../../etc/passwd` is denied. -/
theorem validatePath_string_prefix_characterization_witness :
    validatePath [str "/tmp/a"] (str "/tmp/a/b/../c") = Except.ok (str "/tmp/a/c") ∧
    validatePath [str "/tmp/a"] (str "/tmp/a/../../etc/passwd") =
      Except.error ServerError.accessDenied := by
  constructor
  · exact (validatePath_string_prefix_characterization [str "/tmp/a"] (str "/tmp/a/b/../c")).1
      ⟨str "/tmp/a", by decide, by decide⟩
  · exact (validatePath_string_prefix_characterization [str "/tmp/a"]
      (str "/tmp/a/../../etc/passwd")).2.1 (by decide)

/-! ### C2 — denied filesystem calls leave the graph untouched -/

/-- C2: when sandbox validation of the path argument fails, `readFile`,
`writeFile` and `editFile` return the access-denied error and leave the
server state — in particular the knowledge graph — and the disk exactly as
they were; the bridge (`rememberFileAccess`) runs only after validation
and the disk operation succeed. -/
theorem accessDenied_leaves_state_unchanged (fs : FsState) (st : ServerState)
    (p c : Str) (edits : List FileEdit) (dryRun : Bool) (now : Nat)
    (h : validatePath st.allowedDirectories p = Except.error ServerError.accessDenied) :
    readFile fs st p now = (Except.error ServerError.accessDenied, st) ∧
    writeFile fs st p c now = (Except.error ServerError.accessDenied, (fs, st)) ∧
    editFile fs st p edits dryRun now = (Except.error ServerError.accessDenied, (fs, st)) := by
  refine ⟨?_, ?_, ?_⟩ <;> simp [readFile, writeFile, editFile, h]

/-- C2 witness: a read, a write and an edit of `/etc/passwd` under allowed
directory `/tmp/a` are all denied with no state change. -/
theorem accessDenied_leaves_state_unchanged_witness :
    readFile [] ⟨[str "/tmp/a"], []⟩ (str "/etc/passwd") 5 =
      (Except.error ServerError.accessDenied, ⟨[str "/tmp/a"], []⟩) ∧
    writeFile [] ⟨[str "/tmp/a"], []⟩ (str "/etc/passwd") (str "x") 5 =
      (Except.error ServerError.accessDenied, ([], ⟨[str "/tmp/a"], []⟩)) ∧
    editFile [] ⟨[str "/tmp/a"], []⟩ (str "/etc/passwd") [] true 5 =
      (Except.error ServerError.accessDenied, ([], ⟨[str "/tmp/a"], []⟩)) :=
  accessDenied_leaves_state_unchanged [] ⟨[str "/tmp/a"], []⟩ (str "/etc/passwd")
    (str "x") [] true 5 (by decide)

/-! ### C3 — the allowed-directory set never empties -/

theorem addAllowedDirectory_ok_ne_nil (dirExists : Str → Bool) (allowed : List Str)
    (p : Str) (l : List Str) (h : allowed ≠ [])
    (hadd : addAllowedDirectory dirExists allowed p = Except.ok l) : l ≠ [] := by
  unfold addAllowedDirectory at hadd
  by_cases h1 : dirExists (resolvePath p) = true
  · by_cases h2 : resolvePath p ∈ allowed
    · simp only [h1, h2] at hadd
      simp at hadd
      exact hadd ▸ h
    · simp only [h1, h2] at hadd
      simp at hadd
      simp [← hadd]
  · simp only [Bool.not_eq_true] at h1
    simp [h1] at hadd

theorem removeAllowedDirectory_snd_ne_nil (allowed : List Str) (p : Str)
    (h : allowed ≠ []) : (removeAllowedDirectory allowed p).2 ≠ [] := by
  unfold removeAllowedDirectory
  by_cases h1 : (allowed.filter fun dir => decide (dir ≠ resolvePath p)).length = allowed.length
  · rw [if_pos h1]
    intro hnil
    have hf : (allowed.filter fun dir => decide (dir ≠ resolvePath p)) = [] := hnil
    rw [hf] at h1
    exact h (List.length_eq_zero.mp h1.symm)
  · rw [if_neg h1]
    by_cases h2 : (allowed.filter fun dir => decide (dir ≠ resolvePath p)).length = 0
    · rw [if_pos h2]
      simp
    · rw [if_neg h2]
      intro hnil
      have hf : (allowed.filter fun dir => decide (dir ≠ resolvePath p)) = [] := hnil
      rw [hf] at h2
      exact h2 rfl

theorem applyDirOp_ne_nil (dirExists : Str → Bool) (allowed : List Str)
    (op : DirOp) (h : allowed ≠ []) : applyDirOp dirExists allowed op ≠ [] := by
  cases op with
  | add p =>
    cases hadd : addAllowedDirectory dirExists allowed p with
    | ok l =>
      simp only [applyDirOp, hadd]
      exact addAllowedDirectory_ok_ne_nil dirExists allowed p l h hadd
    | error e =>
      simp only [applyDirOp, hadd]
      exact h
  | remove p => exact removeAllowedDirectory_snd_ne_nil allowed p h

/-- C3: starting from a non-empty allowed-directory set, no sequence of
`add_allowed_directory` / `remove_allowed_directory` calls can empty it;
and removing the sole remaining directory fails with the last-directory
error while leaving the set exactly as it was (so the count is unchanged),
because the removal is rolled back before the error is thrown. -/
theorem allowedDirectories_never_empty :
    (∀ (dirExists : Str → Bool) (allowed : List Str) (ops : List DirOp),
        allowed ≠ [] → runDirOps dirExists allowed ops ≠ []) ∧
    (∀ d p, (removeAllowedDirectory [d] p).2 = [d] ∧
        (resolvePath p = d →
          (removeAllowedDirectory [d] p).1 = Except.error ServerError.lastDirectory)) := by
  constructor
  · intro dirExists allowed ops
    induction ops generalizing allowed with
    | nil => exact fun h => h
    | cons op t ih =>
      intro h
      exact ih (applyDirOp dirExists allowed op) (applyDirOp_ne_nil dirExists allowed op h)
  · intro d p
    unfold removeAllowedDirectory
    by_cases h : d = resolvePath p
    · subst h
      simp
    · constructor
      · simp [h]
      · intro hrp
        exact absurd hrp.symm h

/-- C3 witness: with `/tmp/a` as sole allowed directory, adding `/tmp/b`
and then removing both leaves a non-empty set, and removing the sole
`/tmp/a` errors with the set unchanged. -/
theorem allowedDirectories_never_empty_witness :
    runDirOps (fun _ => true) [str "/tmp/a"]
      [DirOp.add (str "/tmp/b"), DirOp.remove (str "/tmp/a"), DirOp.remove (str "/tmp/b")]
      ≠ [] ∧
    (removeAllowedDirectory [str "/tmp/a"] (str "/tmp/a")).2 = [str "/tmp/a"] ∧
    (removeAllowedDirectory [str "/tmp/a"] (str "/tmp/a")).1 =
      Except.error ServerError.lastDirectory :=
  ⟨allowedDirectories_never_empty.1 (fun _ => true) [str "/tmp/a"] _ (by decide),
   (allowedDirectories_never_empty.2 (str "/tmp/a") (str "/tmp/a")).1,
   (allowedDirectories_never_empty.2 (str "/tmp/a") (str "/tmp/a")).2 (by decide)⟩

/-! ### C6 — deletion leaves no dangling edges -/

/-- C6: after `deleteEntities([X])`, for every graph shape, the entity
named X is gone and no remaining entity keeps a relation whose target is
X — the dangling-edge cleanup strips them all. -/
theorem deleteEntities_no_dangling (g : MemoryGraph) (X : Str) :
    lookupEntity (deleteEntities g [X]) X = none ∧
    ∀ m ∈ deleteEntities g [X], ∀ r ∈ m.relations, r.to_ ≠ X := by
  have hstep : deleteEntities g [X] = deleteEntities1 g X := rfl
  rw [hstep]
  constructor
  · rw [lookupEntity_eq_none_iff]
    intro m hm
    unfold deleteEntities1 at hm
    simp only [List.mem_map, List.mem_filter] at hm
    obtain ⟨e, ⟨_, hne⟩, rfl⟩ := hm
    simpa using hne
  · intro m hm r hr
    unfold deleteEntities1 at hm
    simp only [List.mem_map, List.mem_filter] at hm
    obtain ⟨e, ⟨_, _⟩, rfl⟩ := hm
    simp only [List.mem_filter] at hr
    simpa using hr.2

/-! ### Upsert lemmas for `createEntitiesInternal` -/

theorem lookupEntity_name {g : MemoryGraph} {n : Str} {node : MemoryNode}
    (h : lookupEntity g n = some node) : node.name = n := by
  have := List.find?_some h
  simpa using this

theorem lookupEntity_mem {g : MemoryGraph} {n : Str} {node : MemoryNode}
    (h : lookupEntity g n = some node) : node ∈ g :=
  List.mem_of_find?_eq_some h

theorem mergeObs_mem_left {obs newObs : List Str} {s : Str} (h : s ∈ obs) :
    s ∈ mergeObs obs newObs :=
  List.mem_append.mpr (Or.inl h)

theorem mergeObs_mem_new {obs newObs : List Str} {s : Str} (h : s ∈ newObs) :
    s ∈ mergeObs obs newObs := by
  by_cases hs : s ∈ obs
  · exact mergeObs_mem_left hs
  · exact List.mem_append.mpr (Or.inr (List.mem_filter.mpr ⟨h, by simpa using hs⟩))

theorem mergeObs_of_all_mem {obs newObs : List Str}
    (h : ∀ s ∈ newObs, s ∈ obs) : mergeObs obs newObs = obs := by
  unfold mergeObs
  rw [List.filter_eq_nil_iff.mpr, List.append_nil]
  intro s hs
  simpa using h s hs

theorem upsertNode_name (e : MemoryEntity) (m : MemoryNode) :
    (if m.name = e.name then
        { m with observations := mergeObs m.observations e.observations }
      else m).name = m.name := by
  split <;> rfl

/-- After one upsert step, any node found at a name is the old node with
an observation suffix appended and everything else unchanged. -/
theorem createEntitiesInternal1_preserves (g : MemoryGraph) (e : MemoryEntity)
    (n : Str) (node : MemoryNode) (h : lookupEntity g n = some node) :
    ∃ node', lookupEntity (createEntitiesInternal1 g e) n = some node' ∧
      node'.entityType = node.entityType ∧ node'.relations = node.relations ∧
      ∃ ext, node'.observations = node.observations ++ ext := by
  unfold createEntitiesInternal1
  by_cases hex : (lookupEntity g e.name).isSome
  · rw [if_pos hex, lookupEntity_map _ _ (upsertNode_name e) n, h, Option.map_some']
    by_cases hn : node.name = e.name
    · exact ⟨_, rfl, by simp [hn], by simp [hn],
        ⟨e.observations.filter (fun o => decide (o ∉ node.observations)),
         by simp [hn, mergeObs]⟩⟩
    · exact ⟨_, rfl, by simp [hn], by simp [hn], ⟨[], by simp [hn]⟩⟩
  · rw [if_neg hex, lookupEntity_append, h]
    exact ⟨node, rfl, rfl, rfl, ⟨[], (List.append_nil _).symm⟩⟩

/-! ### C10 — merging never touches type or relations -/

/-- C10: any `createEntities` call (in particular the bridge's file-access
upsert) whose entity name already exists leaves that entity's `entityType`
and `relations` unchanged and only appends to its observation sequence; a
stub auto-created with type `unknown` by `createRelations` therefore keeps
type `unknown` whatever type a later `createEntities` supplies. -/
theorem createEntities_preserves_type_and_relations (g : MemoryGraph)
    (l : List MemoryEntity) (n : Str) (node : MemoryNode)
    (h : lookupEntity g n = some node) :
    ∃ node', lookupEntity (createEntitiesInternal g l) n = some node' ∧
      node'.entityType = node.entityType ∧ node'.relations = node.relations ∧
      ∃ ext, node'.observations = node.observations ++ ext := by
  induction l generalizing g node with
  | nil => exact ⟨node, h, rfl, rfl, ⟨[], (List.append_nil _).symm⟩⟩
  | cons e t ih =>
    obtain ⟨node1, h1, hty1, hrel1, ext1, hobs1⟩ :=
      createEntitiesInternal1_preserves g e n node h
    obtain ⟨node2, h2, hty2, hrel2, ext2, hobs2⟩ := ih (createEntitiesInternal1 g e) node1 h1
    refine ⟨node2, h2, hty2.trans hty1, hrel2.trans hrel1, ⟨ext1 ++ ext2, ?_⟩⟩
    rw [hobs2, hobs1, List.append_assoc]

/-- C10 witness: `createRelations` stub-creates entity `b` with type
`unknown`; a later `createEntities` call supplying type `person` for `b`
leaves the type `unknown`. -/
theorem createEntities_preserves_type_and_relations_witness :
    (lookupEntity
        (createEntitiesInternal
          (createRelationsInternal [] [⟨str "a", str "b", str "likes"⟩])
          [⟨str "b", str "person", [str "obs1"]⟩])
        (str "b")).map MemoryNode.entityType = some (str "unknown") := by
  obtain ⟨node', h1, h2, -, -⟩ :=
    createEntities_preserves_type_and_relations
      (createRelationsInternal [] [⟨str "a", str "b", str "likes"⟩])
      [⟨str "b", str "person", [str "obs1"]⟩] (str "b")
      ⟨str "b", str "unknown", [], []⟩ (by decide)
  rw [h1, Option.map_some', h2]

/-! ### C5 — idempotence of `createEntities` on observations -/

theorem coveredBy_createEntitiesInternal1_self (g : MemoryGraph) (e : MemoryEntity) :
    coveredBy (createEntitiesInternal1 g e) e := by
  unfold coveredBy createEntitiesInternal1
  by_cases hex : (lookupEntity g e.name).isSome
  · rw [if_pos hex]
    refine ⟨?_, ?_⟩
    · rw [lookupEntity_map _ _ (upsertNode_name e)]
      simpa using hex
    · intro m hm hname s hs
      obtain ⟨m0, hm0, rfl⟩ := List.mem_map.mp hm
      have h0 : m0.name = e.name := by rw [← upsertNode_name e m0]; exact hname
      rw [if_pos h0]
      exact mergeObs_mem_new hs
  · rw [if_neg hex]
    have hnone : lookupEntity g e.name = none := Option.not_isSome_iff_eq_none.mp hex
    refine ⟨?_, ?_⟩
    · rw [lookupEntity_append, hnone]
      simp
    · intro m hm hname s hs
      rcases List.mem_append.mp hm with hg | hx
      · exact absurd hname ((lookupEntity_eq_none_iff g e.name).mp hnone m hg)
      · simp only [List.mem_singleton] at hx
        subst hx
        exact hs

theorem coveredBy_preserved (g : MemoryGraph) (e e' : MemoryEntity)
    (h : coveredBy g e) : coveredBy (createEntitiesInternal1 g e') e := by
  obtain ⟨h1, h2⟩ := h
  unfold coveredBy createEntitiesInternal1
  by_cases hex : (lookupEntity g e'.name).isSome
  · rw [if_pos hex]
    refine ⟨?_, ?_⟩
    · rw [lookupEntity_map _ _ (upsertNode_name e')]
      simpa using h1
    · intro m hm hname s hs
      obtain ⟨m0, hm0, rfl⟩ := List.mem_map.mp hm
      have hname0 : m0.name = e.name := by rw [← upsertNode_name e' m0]; exact hname
      by_cases h0 : m0.name = e'.name
      · rw [if_pos h0]
        exact mergeObs_mem_left (h2 m0 hm0 hname0 s hs)
      · rw [if_neg h0]
        exact h2 m0 hm0 hname0 s hs
  · rw [if_neg hex]
    have hnone : lookupEntity g e'.name = none := Option.not_isSome_iff_eq_none.mp hex
    refine ⟨?_, ?_⟩
    · rw [lookupEntity_append]
      rcases ho : lookupEntity g e.name with _ | node
      · rw [ho] at h1
        simp at h1
      · simp [Option.or]
    · intro m hm hname s hs
      rcases List.mem_append.mp hm with hg | hx
      · exact h2 m hg hname s hs
      · simp only [List.mem_singleton] at hx
        subst hx
        exfalso
        have heq : e'.name = e.name := hname
        rw [heq] at hnone
        rw [hnone] at h1
        simp at h1

theorem coveredBy_noop (g : MemoryGraph) (e : MemoryEntity) (h : coveredBy g e) :
    createEntitiesInternal1 g e = g := by
  obtain ⟨h1, h2⟩ := h
  unfold createEntitiesInternal1
  rw [if_pos h1]
  have hid : ∀ m ∈ g,
      (if m.name = e.name then
        { m with observations := mergeObs m.observations e.observations }
      else m) = m := by
    intro m hm
    by_cases h0 : m.name = e.name
    · rw [if_pos h0, mergeObs_of_all_mem (fun s hs => h2 m hm h0 s hs)]
    · rw [if_neg h0]
  rw [List.map_congr_left hid, List.map_id']

theorem coveredBy_foldl (g : MemoryGraph) (l : List MemoryEntity) (e : MemoryEntity)
    (h : coveredBy g e) : coveredBy (createEntitiesInternal g l) e := by
  induction l generalizing g with
  | nil => exact h
  | cons e' t ih => exact ih _ (coveredBy_preserved g e e' h)

theorem coveredBy_after (g : MemoryGraph) (l : List MemoryEntity) :
    ∀ e ∈ l, coveredBy (createEntitiesInternal g l) e := by
  induction l generalizing g with
  | nil => intro e he; cases he
  | cons a t ih =>
    intro e he
    rcases List.mem_cons.mp he with rfl | het
    · exact coveredBy_foldl _ t e (coveredBy_createEntitiesInternal1_self g e)
    · exact ih _ e het

theorem createEntitiesInternal_noop (g : MemoryGraph) (l : List MemoryEntity)
    (h : ∀ e ∈ l, coveredBy g e) : createEntitiesInternal g l = g := by
  induction l with
  | nil => rfl
  | cons a t ih =>
    have hg : createEntitiesInternal1 g a = g := coveredBy_noop g a (h a (by simp))
    show createEntitiesInternal (createEntitiesInternal1 g a) t = g
    rw [hg]
    exact ih fun e he => h e (by simp [he])

theorem nodupObs_step (g : MemoryGraph) (e : MemoryEntity)
    (hg : ∀ m ∈ g, m.observations.Nodup) (he : e.observations.Nodup) :
    ∀ m ∈ createEntitiesInternal1 g e, m.observations.Nodup := by
  intro m hm
  unfold createEntitiesInternal1 at hm
  by_cases hex : (lookupEntity g e.name).isSome
  · rw [if_pos hex] at hm
    obtain ⟨m0, hm0, rfl⟩ := List.mem_map.mp hm
    by_cases h0 : m0.name = e.name
    · rw [if_pos h0]
      refine (hg m0 hm0).append ((List.filter_sublist _).nodup he) ?_
      intro a ha hafil
      have hmem := (List.mem_filter.mp hafil).2
      simp only [decide_not, Bool.not_eq_true', decide_eq_false_iff_not] at hmem
      exact hmem ha
    · rw [if_neg h0]
      exact hg m0 hm0
  · rw [if_neg hex] at hm
    rcases List.mem_append.mp hm with h | h
    · exact hg m h
    · simp only [List.mem_singleton] at h
      subst h
      exact he

theorem nodupObs_list (g : MemoryGraph) (l : List MemoryEntity)
    (hg : ∀ m ∈ g, m.observations.Nodup) (hl : ∀ e ∈ l, e.observations.Nodup) :
    ∀ m ∈ createEntitiesInternal g l, m.observations.Nodup := by
  induction l generalizing g with
  | nil => exact hg
  | cons a t ih =>
    exact ih _ (nodupObs_step g a hg (hl a (by simp))) fun e he => hl e (by simp [he])

/-- C5, counterexample: with the single entity list
`[{name: n, observations: [a, a]}]`, the observation sequence after one
(and equally after two) `createEntities` calls is `[a, a]`, which contains
a duplicate string: the dedup filter only compares against the snapshot of
the *existing* observations, so input-internal duplicates survive. -/
theorem createEntities_duplicate_counterexample :
    (lookupEntity
        (createEntitiesInternal
          (createEntitiesInternal [] [⟨str "n", str "t", [str "a", str "a"]⟩])
          [⟨str "n", str "t", [str "a", str "a"]⟩])
        (str "n")).map MemoryNode.observations = some [str "a", str "a"] ∧
    ¬ ([str "a", str "a"] : List Str).Nodup := by decide

/-- C5, amended: `createEntities` is idempotent — repeating a call with the
same entity list changes nothing; the final observation sequences are
duplicate-free provided the graph's existing observation lists and the
incoming observation lists are themselves duplicate-free (an incoming list
with internal duplicate strings is preserved verbatim instead); and a
later distinct observation still lands at the end of the sequence. -/
theorem createEntities_idempotent_on_observations (g : MemoryGraph)
    (l : List MemoryEntity) (name ty s : Str) (node : MemoryNode)
    (hg : ∀ m ∈ g, m.observations.Nodup) (hl : ∀ e ∈ l, e.observations.Nodup)
    (hnode : lookupEntity g name = some node) (hs : s ∉ node.observations) :
    createEntitiesInternal (createEntitiesInternal g l) l = createEntitiesInternal g l ∧
    (∀ m ∈ createEntitiesInternal g l, m.observations.Nodup) ∧
    (lookupEntity (createEntitiesInternal g [⟨name, ty, [s]⟩]) name).map
        MemoryNode.observations = some (node.observations ++ [s]) := by
  refine ⟨createEntitiesInternal_noop _ l (coveredBy_after g l), nodupObs_list g l hg hl, ?_⟩
  show (lookupEntity (createEntitiesInternal1 g ⟨name, ty, [s]⟩) name).map
      MemoryNode.observations = some (node.observations ++ [s])
  unfold createEntitiesInternal1
  rw [if_pos (by rw [hnode]; rfl)]
  rw [lookupEntity_map _ _ (upsertNode_name _), hnode, Option.map_some']
  have hname : node.name = name := lookupEntity_name hnode
  rw [if_pos hname, Option.map_some']
  simp [mergeObs, hs]

/-- C5 witness: starting from the empty graph and the duplicate-free
observation list `[o1, o2]`, calling twice is a no-op, the stored sequence
is duplicate-free, and appending distinct `o3` afterwards puts it last. -/
theorem createEntities_idempotent_on_observations_witness :
    (createEntitiesInternal
        (createEntitiesInternal [] [⟨str "n", str "t", [str "o1", str "o2"]⟩])
        [⟨str "n", str "t", [str "o1", str "o2"]⟩] =
      createEntitiesInternal [] [⟨str "n", str "t", [str "o1", str "o2"]⟩]) ∧
    (∀ m ∈ createEntitiesInternal ([] : MemoryGraph)
        [⟨str "n", str "t", [str "o1", str "o2"]⟩], m.observations.Nodup) ∧
    (lookupEntity
        (createEntitiesInternal
          (createEntitiesInternal [] [⟨str "n", str "t", [str "o1", str "o2"]⟩])
          [⟨str "n", str "t", [str "o3"]⟩])
        (str "n")).map MemoryNode.observations =
      some ([str "o1", str "o2"] ++ [str "o3"]) := by
  have h := createEntities_idempotent_on_observations
    (createEntitiesInternal [] [⟨str "n", str "t", [str "o1", str "o2"]⟩])
    [⟨str "n", str "t", [str "o1", str "o2"]⟩] (str "n") (str "t") (str "o3")
    ⟨str "n", str "t", [str "o1", str "o2"], []⟩
    (by decide) (by decide) (by decide) (by decide)
  exact ⟨h.1, h.2.1, h.2.2⟩

/-! ### C7 — `addObservations` -/

/-- C7, counterexample: with entity `n` already holding observation `x`,
`addObservations(n, [x])` adds nothing (the graph is returned unchanged)
yet reports a count of 1 — the input list's length, not the post-dedup
count the claim requires. -/
theorem addObservations_reported_count_counterexample :
    addObservations [⟨str "n", str "t", [str "x"], []⟩] (str "n") [str "x"] =
      Except.ok ([⟨str "n", str "t", [str "x"], []⟩], 1) ∧ (1 : Nat) ≠ 0 := by decide

/-- C7, amended: `addObservations` fails with the entity-not-found error
when the name is absent (no graph is produced at all), and otherwise
appends exactly the input strings not already present, in input order,
while the count it reports is the *length of the input list* (not the
post-dedup count). -/
theorem addObservations_spec (g : MemoryGraph) (entityName : Str)
    (obsList : List Str) :
    (lookupEntity g entityName = none →
        addObservations g entityName obsList = Except.error ServerError.entityNotFound) ∧
    (∀ node, lookupEntity g entityName = some node →
        ∃ g', addObservations g entityName obsList = Except.ok (g', obsList.length) ∧
          (lookupEntity g' entityName).map MemoryNode.observations =
            some (node.observations ++
              obsList.filter fun o => decide (o ∉ node.observations))) := by
  constructor
  · intro h
    unfold addObservations
    rw [h]
  · intro node h
    unfold addObservations
    rw [h]
    refine ⟨_, rfl, ?_⟩
    have hf : ∀ m : MemoryNode,
        ((if m.name = entityName then
            { m with observations := mergeObs m.observations obsList }
          else m) : MemoryNode).name = m.name := by
      intro m
      split <;> rfl
    rw [lookupEntity_map _ _ hf, h, Option.map_some']
    have hname : node.name = entityName := lookupEntity_name h
    rw [if_pos hname, Option.map_some']
    simp [mergeObs]

/-- C7 witness: adding `[x, y]` to an entity already holding `x` appends
only `y` but reports 2; adding to a missing entity errors. -/
theorem addObservations_spec_witness :
    (addObservations [⟨str "n", str "t", [str "x"], []⟩] (str "missing") [str "x"] =
      Except.error ServerError.entityNotFound) ∧
    ∃ g', addObservations [⟨str "n", str "t", [str "x"], []⟩] (str "n") [str "x", str "y"] =
        Except.ok (g', 2) ∧
      (lookupEntity g' (str "n")).map MemoryNode.observations =
        some ([str "x"] ++ [str "y"]) := by
  constructor
  · exact (addObservations_spec [⟨str "n", str "t", [str "x"], []⟩]
      (str "missing") [str "x"]).1 (by decide)
  · obtain ⟨g', h1, h2⟩ := (addObservations_spec [⟨str "n", str "t", [str "x"], []⟩]
      (str "n") [str "x", str "y"]).2 ⟨str "n", str "t", [str "x"], []⟩ (by decide)
    exact ⟨g', h1, by rw [h2]; decide⟩

/-! ### C4 — search ranking -/

theorem jsIncludes_self (s : Str) : jsIncludes s s = true := by
  cases s with
  | nil => rfl
  | cons c t =>
    unfold jsIncludes
    rw [Bool.or_eq_true]
    exact Or.inl ( List.isPrefixOf_iff_prefix.mpr (List.prefix_refl _))

theorem mem_insertDesc {x y : MemorySearchResult} {l : List MemorySearchResult} :
    y ∈ insertDesc x l ↔ y = x ∨ y ∈ l := by
  induction l with
  | nil => simp [insertDesc]
  | cons a t ih =>
    unfold insertDesc
    by_cases h : a.score ≤ x.score
    · simp [h]
    · simp only [h, if_false, if_neg, not_false_iff, List.mem_cons, ih]
      tauto

theorem mem_sortByScoreDesc {y : MemorySearchResult} {l : List MemorySearchResult} :
    y ∈ sortByScoreDesc l ↔ y ∈ l := by
  induction l with
  | nil => simp [sortByScoreDesc]
  | cons a t ih =>
    unfold sortByScoreDesc
    rw [mem_insertDesc, ih, List.mem_cons]

theorem sorted_insertDesc {x : MemorySearchResult} {l : List MemorySearchResult}
    (h : l.Sorted fun a b => b.score ≤ a.score) :
    (insertDesc x l).Sorted fun a b => b.score ≤ a.score := by
  induction l with
  | nil => simp [insertDesc]
  | cons a t ih =>
    unfold insertDesc
    by_cases hxa : a.score ≤ x.score
    · rw [if_pos hxa]
      refine List.sorted_cons.mpr ⟨?_, h⟩
      intro b hb
      rcases List.mem_cons.mp hb with rfl | hbt
      · exact hxa
      · exact le_trans ((List.sorted_cons.mp h).1 b hbt) hxa
    · rw [if_neg hxa]
      have ht := (List.sorted_cons.mp h).2
      refine List.sorted_cons.mpr ⟨?_, ih ht⟩
      intro b hb
      rcases mem_insertDesc.mp hb with rfl | hbt
      · exact le_of_not_le hxa
      · exact (List.sorted_cons.mp h).1 b hbt

theorem sorted_sortByScoreDesc (l : List MemorySearchResult) :
    (sortByScoreDesc l).Sorted fun a b => b.score ≤ a.score := by
  induction l with
  | nil => simp [sortByScoreDesc]
  | cons a t ih => exact sorted_insertDesc ih

theorem filter_insertDesc (x : MemorySearchResult) (l : List MemorySearchResult) (s : Nat) :
    (insertDesc x l).filter (fun r => decide (r.score = s)) =
      if x.score = s then x :: l.filter (fun r => decide (r.score = s))
      else l.filter (fun r => decide (r.score = s)) := by
  induction l with
  | nil =>
    unfold insertDesc
    by_cases h : x.score = s <;> simp [h]
  | cons a t ih =>
    unfold insertDesc
    by_cases hxa : a.score ≤ x.score
    · rw [if_pos hxa]
      by_cases h : x.score = s <;> simp [List.filter_cons, h]
    · rw [if_neg hxa]
      by_cases ha : a.score = s
      · have hxs : ¬ x.score = s := by
          intro hh
          exact hxa (le_of_eq (ha.trans hh.symm))
        simp [List.filter_cons, ha, hxs, ih]
      · by_cases h : x.score = s <;> simp [List.filter_cons, ha, h, ih]

theorem filter_sortByScoreDesc (l : List MemorySearchResult) (s : Nat) :
    (sortByScoreDesc l).filter (fun r => decide (r.score = s)) =
      l.filter (fun r => decide (r.score = s)) := by
  induction l with
  | nil => rfl
  | cons a t ih =>
    show (insertDesc a (sortByScoreDesc t)).filter _ = _
    rw [filter_insertDesc, List.filter_cons]
    by_cases h : a.score = s <;> simp [h, ih]

/-- C4, counterexample: entity `a` matches query `a` by exact name (score
100); entity `b` matches only through its 10 observations (`a0` … `a9`),
also scoring 10 × 10 = 100 — so the exact-name entity's score does *not*
strictly exceed every observation-only matcher's score. -/
theorem searchNodes_exact_name_tie_counterexample :
    (searchNodesInternal
        [⟨str "a", str "t", [], []⟩,
         ⟨str "b", str "t",
          [str "a0", str "a1", str "a2", str "a3", str "a4",
           str "a5", str "a6", str "a7", str "a8", str "a9"], []⟩]
        (str "a")).map MemorySearchResult.score = [100, 100] ∧
    jsIncludes (lowerStr (str "b")) (lowerStr (str "a")) = false ∧
    jsIncludes (lowerStr (str "t")) (lowerStr (str "a")) = false := by decide

/-- C4, amended: `searchNodes` returns only strictly positive scores,
sorted descending with ties kept in entity insertion order (the
score-class subsequences of the output equal those of the unsorted
insertion-order scan); and an exact-name match (worth 100) strictly
dominates an entity matching only via observations (10 each, additively)
provided the latter has at most 9 matching observations — at 10 or more
the observation-only score ties or exceeds it. -/
theorem searchNodes_ranked (g : MemoryGraph) (q : Str) :
    (∀ r ∈ searchNodesInternal g q, 0 < r.score) ∧
    ((searchNodesInternal g q).Sorted fun a b => b.score ≤ a.score) ∧
    (∀ s, (searchNodesInternal g q).filter (fun r => decide (r.score = s)) =
        (searchResultsUnsorted g q).filter (fun r => decide (r.score = s))) ∧
    (∀ eA eB : MemoryNode, q = eA.name →
      jsIncludes (lowerStr eB.name) (lowerStr q) = false →
      jsIncludes (lowerStr eB.entityType) (lowerStr q) = false →
      eB.observations.countP (fun o => jsIncludes (lowerStr o) (lowerStr q)) ≤ 9 →
      entityScore (lowerStr q) eB < entityScore (lowerStr q) eA) := by
  refine ⟨?_, sorted_sortByScoreDesc _, fun s => filter_sortByScoreDesc _ s, ?_⟩
  · intro r hr
    unfold searchNodesInternal at hr
    rw [mem_sortByScoreDesc] at hr
    simp only [searchResultsUnsorted] at hr
    obtain ⟨e, he, hr⟩ := List.mem_filterMap.mp hr
    by_cases hpos : 0 < entityScore (lowerStr q) e
    · rw [if_pos hpos] at hr
      cases hr
      exact hpos
    · rw [if_neg hpos] at hr
      cases hr
  · intro eA eB hA hBname hBtype hBobs
    have hself : jsIncludes (lowerStr eA.name) (lowerStr q) = true := by
      rw [hA]
      exact jsIncludes_self _
    have hB : entityScore (lowerStr q) eB =
        10 * eB.observations.countP (fun o => jsIncludes (lowerStr o) (lowerStr q)) := by
      unfold entityScore
      rw [hBname, hBtype]
      simp
    have hA100 : 100 ≤ entityScore (lowerStr q) eA := by
      unfold entityScore
      rw [hself]
      simp
      omega
    have hcount : 10 * eB.observations.countP
        (fun o => jsIncludes (lowerStr o) (lowerStr q)) ≤ 90 := by
      calc 10 * eB.observations.countP (fun o => jsIncludes (lowerStr o) (lowerStr q))
          ≤ 10 * 9 := Nat.mul_le_mul_left 10 hBobs
        _ = 90 := rfl
    omega

/-- C4 witness: the positive-score, sorting, stability and bounded
dominance statements at a concrete graph and query. -/
theorem searchNodes_ranked_witness :
    entityScore (lowerStr (str "a")) ⟨str "b", str "t", [str "xa"], []⟩ <
      entityScore (lowerStr (str "a")) ⟨str "a", str "t", [], []⟩ :=
  (searchNodes_ranked [] (str "a")).2.2.2
    ⟨str "a", str "t", [], []⟩ ⟨str "b", str "t", [str "xa"], []⟩
    rfl (by decide) (by decide) (by decide)

/-! ### C8 — `editFile` -/

theorem applyEdits_append (c : Str) (l1 l2 : List FileEdit) :
    applyEdits c (l1 ++ l2) =
      match applyEdits c l1 with
      | Except.ok c' => applyEdits c' l2
      | Except.error e => Except.error e := by
  induction l1 generalizing c with
  | nil => rfl
  | cons e t ih =>
    simp only [List.cons_append, applyEdits]
    by_cases h : jsIncludes c e.oldText
    · rw [if_pos h, if_pos h]
      exact ih _
    · rw [if_neg h, if_neg h]

theorem applyEdits_error_at (c : Str) (pre : List FileEdit) (e : FileEdit)
    (post : List FileEdit) (c' : Str) (h1 : applyEdits c pre = Except.ok c')
    (h2 : jsIncludes c' e.oldText = false) :
    applyEdits c (pre ++ e :: post) = Except.error ServerError.textNotFound := by
  rw [applyEdits_append, h1]
  show applyEdits c' (e :: post) = Except.error ServerError.textNotFound
  unfold applyEdits
  rw [h2]
  rfl

theorem substituteDollars_no_dollar (matched before after new : Str)
    (h : '$' ∉ new) : substituteDollars matched before after new = new := by
  induction new with
  | nil => rfl
  | cons c rest ih =>
    have hc : ¬ c = '$' := fun hh => h (hh ▸ List.mem_cons_self c rest)
    rw [substituteDollars.eq_def]
    dsimp only
    rw [if_neg hc, ih fun hr => h (List.mem_cons_of_mem c hr)]

/-- C8, counterexample: the replacement text is not taken literally — the
source's `String.prototype.replace` applies the GetSubstitution scan, so
editing the file content `x` with `{oldText: x, newText: $&$&}` yields
`xx` (each `$&` expands to the matched text), and the dry run reports a
would-be length of 2, where the claimed literal substring replacement
would store `$&$&` of length 4. -/
theorem editFile_dollar_pattern_counterexample :
    (editFile [(str "/d/f.txt", str "x")] ⟨[str "/d"], []⟩ (str "/d/f.txt")
        [⟨str "x", str "$&$&"⟩] true 7 =
      (Except.ok (EditOutcome.dryRunReport 1 2),
       ([(str "/d/f.txt", str "x")], ⟨[str "/d"], []⟩))) ∧
    replaceFirst (str "x") (str "x") (str "$&$&") = str "xx" ∧
    replaceFirstLiteral (str "x") (str "x") (str "$&$&") = str "$&$&" ∧
    str "xx" ≠ str "$&$&" := by decide

/-- C8, amended: `editFile` applies the edits in order as first-occurrence
substring replacements against the progressively modified content
(`applyEdits`), where the replacement text is `newText` with the JS
substitution patterns interpreted (a dollar doubles to itself, `$&` is
the matched `oldText`, backquote- and quote-suffixed dollars are the text
before and after the match, everything else literal) — literal substring
replacement exactly when `newText` contains no such pattern, in
particular whenever it contains no dollar at all; as soon as some
`oldText` is absent from the current content it fails with the
text-not-found error (whatever `dryRun` is) and touches nothing; and a
dry run never changes the disk or the server state, succeeding with a
report of the original and would-be modified content lengths.  A real
run writes the modified content to the validated path. -/
theorem editFile_spec (fs : FsState) (st : ServerState) (p : Str)
    (edits : List FileEdit) (now : Nat) (vp content : Str)
    (hv : validatePath st.allowedDirectories p = Except.ok vp)
    (hr : fsRead fs vp = some content) :
    ((editFile fs st p edits true now).2 = (fs, st)) ∧
    (∀ m, applyEdits content edits = Except.ok m →
        editFile fs st p edits true now =
          (Except.ok (EditOutcome.dryRunReport content.length m.length), (fs, st))) ∧
    (∀ pre e post c', edits = pre ++ e :: post →
        applyEdits content pre = Except.ok c' →
        jsIncludes c' e.oldText = false →
        ∀ dryRun, editFile fs st p edits dryRun now =
          (Except.error ServerError.textNotFound, (fs, st))) ∧
    (∀ m, applyEdits content edits = Except.ok m →
        (editFile fs st p edits false now).2.1 = fsWrite fs vp m) ∧
    (∀ hay old new, '$' ∉ new →
        replaceFirst hay old new = replaceFirstLiteral hay old new) := by
  refine ⟨?_, ?_, ?_, ?_, ?_⟩
  · simp only [editFile, hv, hr]
    cases happly : applyEdits content edits with
    | ok m => simp
    | error e => simp
  · intro m happly
    simp [editFile, hv, hr, happly]
  · intro pre e post c' hsplit h1 h2 dryRun
    have herr : applyEdits content edits = Except.error ServerError.textNotFound := by
      rw [hsplit]
      exact applyEdits_error_at content pre e post c' h1 h2
    simp [editFile, hv, hr, herr]
  · intro m happly
    simp [editFile, hv, hr, happly]
  · intro hay old new hnew
    unfold replaceFirst replaceFirstLiteral
    cases hafter : afterFirst old hay with
    | none => rfl
    | some rest =>
      dsimp only
      rw [substituteDollars_no_dollar old (upToFirst old hay) rest new hnew]

/-- C8 witness: on a file containing `foofoo`, the dry-run edit
`foo → barbaz` reports lengths 6 and 9 and leaves the disk and state
untouched; with the absent text `qux` the edit fails with text-not-found;
a real run writes `barbazfoo`; and the dollar-free replacement `barbaz`
behaves literally. -/
theorem editFile_spec_witness :
    (editFile [(str "/d/f.txt", str "foofoo")] ⟨[str "/d"], []⟩ (str "/d/f.txt")
        [⟨str "foo", str "barbaz"⟩] true 7 =
      (Except.ok (EditOutcome.dryRunReport 6 9),
       ([(str "/d/f.txt", str "foofoo")], ⟨[str "/d"], []⟩))) ∧
    (editFile [(str "/d/f.txt", str "foofoo")] ⟨[str "/d"], []⟩ (str "/d/f.txt")
        [⟨str "qux", str "y"⟩] true 7 =
      (Except.error ServerError.textNotFound,
       ([(str "/d/f.txt", str "foofoo")], ⟨[str "/d"], []⟩))) ∧
    ((editFile [(str "/d/f.txt", str "foofoo")] ⟨[str "/d"], []⟩ (str "/d/f.txt")
        [⟨str "foo", str "barbaz"⟩] false 7).2.1 =
      fsWrite [(str "/d/f.txt", str "foofoo")] (str "/d/f.txt") (str "barbazfoo")) ∧
    replaceFirst (str "foofoo") (str "foo") (str "barbaz") =
      replaceFirstLiteral (str "foofoo") (str "foo") (str "barbaz") := by
  refine ⟨?_, ?_, ?_, ?_⟩
  · have h := (editFile_spec [(str "/d/f.txt", str "foofoo")] ⟨[str "/d"], []⟩
      (str "/d/f.txt") [⟨str "foo", str "barbaz"⟩] 7 (str "/d/f.txt") (str "foofoo")
      (by decide) (by decide)).2.1 (str "barbazfoo") (by decide)
    exact h
  · have h := (editFile_spec [(str "/d/f.txt", str "foofoo")] ⟨[str "/d"], []⟩
      (str "/d/f.txt") [⟨str "qux", str "y"⟩] 7 (str "/d/f.txt") (str "foofoo")
      (by decide) (by decide)).2.2.1 [] ⟨str "qux", str "y"⟩ [] (str "foofoo")
      (by decide) (by decide) (by decide) true
    exact h
  · have h := (editFile_spec [(str "/d/f.txt", str "foofoo")] ⟨[str "/d"], []⟩
      (str "/d/f.txt") [⟨str "foo", str "barbaz"⟩] 7 (str "/d/f.txt") (str "foofoo")
      (by decide) (by decide)).2.2.2.1 (str "barbazfoo") (by decide)
    exact h
  · have h := (editFile_spec [(str "/d/f.txt", str "foofoo")] ⟨[str "/d"], []⟩
      (str "/d/f.txt") [⟨str "foo", str "barbaz"⟩] 7 (str "/d/f.txt") (str "foofoo")
      (by decide) (by decide)).2.2.2.2 (str "foofoo") (str "foo") (str "barbaz")
      (by decide)
    exact h

/-- C6 witness: deleting `x` from a graph where `y` points at both `x` and
`z` removes `x` and leaves `y` with only the edge to `z`. -/
theorem deleteEntities_no_dangling_witness :
    lookupEntity
        (deleteEntities
          [⟨str "x", str "t", [], []⟩,
           ⟨str "y", str "t", [],
            [⟨str "y", str "x", str "r"⟩, ⟨str "y", str "z", str "r"⟩]⟩]
          [str "x"]) (str "x") = none ∧
    (⟨str "y", str "z", str "r"⟩ : MemoryRelation).to_ ≠ str "x" := by
  refine ⟨(deleteEntities_no_dangling _ (str "x")).1, ?_⟩
  exact (deleteEntities_no_dangling
      [⟨str "x", str "t", [], []⟩,
       ⟨str "y", str "t", [],
        [⟨str "y", str "x", str "r"⟩, ⟨str "y", str "z", str "r"⟩]⟩]
      (str "x")).2
    ⟨str "y", str "t", [], [⟨str "y", str "z", str "r"⟩]⟩ (by decide)
    ⟨str "y", str "z", str "r"⟩ (by decide)

/-! ### C9 — the `accessed_after` temporal heuristic -/

theorem lookupEntity_ensureEntity_self (g : MemoryGraph) (n : Str) :
    (lookupEntity (ensureEntity g n) n).isSome := by
  unfold ensureEntity
  by_cases h : (lookupEntity g n).isSome
  · rw [if_pos h]
    exact h
  · rw [if_neg h, lookupEntity_append, Option.not_isSome_iff_eq_none.mp h]
    simp

theorem ensureEntity_preserves_isSome (g : MemoryGraph) (n n' : Str)
    (h : (lookupEntity g n).isSome) : (lookupEntity (ensureEntity g n') n).isSome := by
  unfold ensureEntity
  by_cases h' : (lookupEntity g n').isSome
  · rw [if_pos h']
    exact h
  · rw [if_neg h', lookupEntity_append]
    rcases ho : lookupEntity g n with _ | node
    · rw [ho] at h
      simp at h
    · simp [Option.or]

theorem hasRelation_after_push (g2 : MemoryGraph) (r : MemoryRelation)
    (hex : (lookupEntity g2 r.from_).isSome) :
    hasRelation (g2.map fun m =>
      if m.name = r.from_ then
        if m.relations.any (fun x => decide (x.to_ = r.to_ ∧ x.relationType = r.relationType)) then
          m
        else
          { m with relations := m.relations ++
              [{ from_ := r.from_, to_ := r.to_, relationType := r.relationType }] }
      else m) r.from_ r.to_ r.relationType = true := by
  obtain ⟨node, hnode⟩ := Option.isSome_iff_exists.mp hex
  have hmem : node ∈ g2 := lookupEntity_mem hnode
  have hname : node.name = r.from_ := lookupEntity_name hnode
  unfold hasRelation
  rw [List.any_eq_true]
  refine ⟨_, List.mem_map.mpr ⟨node, hmem, rfl⟩, ?_⟩
  dsimp only
  rw [if_pos hname, Bool.and_eq_true]
  by_cases hany : node.relations.any
      (fun x => decide (x.to_ = r.to_ ∧ x.relationType = r.relationType)) = true
  · rw [if_pos hany]
    exact ⟨by simp [hname], hany⟩
  · rw [if_neg hany]
    refine ⟨by simp [hname], ?_⟩
    rw [List.any_eq_true]
    exact ⟨⟨r.from_, r.to_, r.relationType⟩,
      List.mem_append.mpr (Or.inr (by simp)), by simp⟩

theorem hasRelation_createRelationsInternal1 (g : MemoryGraph) (r : MemoryRelation) :
    hasRelation (createRelationsInternal1 g r) r.from_ r.to_ r.relationType = true :=
  hasRelation_after_push (ensureEntity (ensureEntity g r.from_) r.to_) r
    (ensureEntity_preserves_isSome _ r.from_ r.to_
      (lookupEntity_ensureEntity_self g r.from_))

/-- C9, counterexample: with `file:/d/a` and `file:/d/b` both accessed in
the last 24 hours and inserted in that order, re-reading `/d/a` makes the
just-touched entity itself the second-to-last entry of the insertion-order
`recentFiles` scan, so the bridge links `file:/d/a` to *itself* — not to
`file:/d/b`, the actual second-most-recently-touched file. -/
theorem rememberFileAccess_self_link_counterexample :
    hasRelation
        (rememberFileAccess
          [⟨str "file:/d/a", str "filesystem_file", [str "Accessed at: 1000"], []⟩,
           ⟨str "file:/d/b", str "filesystem_file", [str "Accessed at: 2000"], []⟩]
          (str "/d/a") (str "read") none 3000)
        (str "file:/d/a") (str "file:/d/a") (str "accessed_after") = true ∧
    hasRelation
        (rememberFileAccess
          [⟨str "file:/d/a", str "filesystem_file", [str "Accessed at: 1000"], []⟩,
           ⟨str "file:/d/b", str "filesystem_file", [str "Accessed at: 2000"], []⟩]
          (str "/d/a") (str "read") none 3000)
        (str "file:/d/a") (str "file:/d/b") (str "accessed_after") = false := by decide

/-- C9, amended: after a successful file operation, when at least two
`filesystem_file` entities carry an `Accessed at:` observation within the
last 24 hours, the bridge adds an `accessed_after` relation from the
just-touched file's entity to the *second-to-last entry in entity
insertion order* of that recent-files scan — which is the
second-most-recently-touched file in the fresh-files case but can even be
the just-touched entity itself; in particular two `read_file` calls on
different fresh files within the same 24-hour window do leave an
`accessed_after` relation from the second file's entity to the first's. -/
theorem rememberFileAccess_temporal_link (g : MemoryGraph) (p op : Str)
    (meta : Option FileMetadata) (now : Nat) :
    (1 < (recentFiles (rememberUpserted g p op meta now) now).length →
      hasRelation (rememberFileAccess g p op meta now) (str "file:" ++ p)
        ((recentFiles (rememberUpserted g p op meta now) now).getD
          ((recentFiles (rememberUpserted g p op meta now) now).length - 2) dummyNode).name
        (str "accessed_after") = true) ∧
    hasRelation
        ((readFile [(str "/d/a.txt", str "ha"), (str "/d/b.txt", str "hb")]
          ((readFile [(str "/d/a.txt", str "ha"), (str "/d/b.txt", str "hb")]
            ⟨[str "/d"], []⟩ (str "/d/a.txt") 1000).2)
          (str "/d/b.txt") 2000).2).memoryGraph
      (str "file:/d/b.txt") (str "file:/d/a.txt") (str "accessed_after") = true := by
  constructor
  · intro h
    simp only [rememberFileAccess]
    rw [if_pos h]
    exact hasRelation_createRelationsInternal1 (rememberUpserted g p op meta now)
      ⟨str "file:" ++ p,
       ((recentFiles (rememberUpserted g p op meta now) now).getD
         ((recentFiles (rememberUpserted g p op meta now) now).length - 2) dummyNode).name,
       str "accessed_after"⟩
  · decide

/-- C9 witness: the general temporal-link statement applied to the
two-recent-files graph in which the re-read of `/d/a` self-links. -/
theorem rememberFileAccess_temporal_link_witness :
    hasRelation
        (rememberFileAccess
          [⟨str "file:/d/a", str "filesystem_file", [str "Accessed at: 1000"], []⟩,
           ⟨str "file:/d/b", str "filesystem_file", [str "Accessed at: 2000"], []⟩]
          (str "/d/a") (str "read") none 3000)
        (str "file:" ++ str "/d/a")
        ((recentFiles
            (rememberUpserted
              [⟨str "file:/d/a", str "filesystem_file", [str "Accessed at: 1000"], []⟩,
               ⟨str "file:/d/b", str "filesystem_file", [str "Accessed at: 2000"], []⟩]
              (str "/d/a") (str "read") none 3000) 3000).getD
          ((recentFiles
            (rememberUpserted
              [⟨str "file:/d/a", str "filesystem_file", [str "Accessed at: 1000"], []⟩,
               ⟨str "file:/d/b", str "filesystem_file", [str "Accessed at: 2000"], []⟩]
              (str "/d/a") (str "read") none 3000) 3000).length - 2) dummyNode).name
        (str "accessed_after") = true :=
  (rememberFileAccess_temporal_link
      [⟨str "file:/d/a", str "filesystem_file", [str "Accessed at: 1000"], []⟩,
       ⟨str "file:/d/b", str "filesystem_file", [str "Accessed at: 2000"], []⟩]
      (str "/d/a") (str "read") none 3000).1 (by decide)
